import Mathlib

/-!
# SortingBot: the manual sorter (`manual-sorter-bot.js`)

A shallow embedding of the `ManualSorterBot` class and the properties of its
folder-name sanitizer, target-path derivation, conflict resolver, mover,
per-file sorter and directory walker.

Conventions of the embedding

* A JavaScript string is the list of its UTF-16 code units (`JSString`), so
  `length`, `substring` and the regular expressions (which run without the
  `u` flag) work code unit by code unit, as they do in the engine.
* The running statistics, the file system and the console output are threaded
  through the functions as an explicit state.
* Node's `path` module, `JSON.parse` and the failure of a file-system call are
  not part of the program; they are parameters (`PathLib`, `Env`).
-/

namespace SortingBot

/-! ## Strings -/

/-- A JavaScript string as its sequence of UTF-16 code units. -/
abbrev JSString := List Nat

/-- The code units of a literal; every character used below is in the Basic
Multilingual Plane, where code unit and code point coincide. -/
def js (s : String) : JSString := s.toList.map Char.toNat

/-- The code unit of `_`. -/
abbrev underscore : Nat := 95

/-- Code units matched by `\s`, which are also the ones `String.prototype.trim` removes:
TAB, LF, VT, FF, CR, SPACE, NBSP, U+1680, U+2000..U+200A, U+2028, U+2029,
U+202F, U+205F, U+3000 and U+FEFF. -/
def isWhiteSpace (c : Nat) : Bool :=
  c == 9 || c == 10 || c == 11 || c == 12 || c == 13 || c == 32 || c == 160 ||
  c == 5760 || (8192 ≤ c && c ≤ 8202) || c == 8232 || c == 8233 || c == 8239 ||
  c == 8287 || c == 12288 || c == 65279

/-- Code units of the class `[<>:"/\\|?*]`. -/
def isInvalidChar (c : Nat) : Bool :=
  c == 60 || c == 62 || c == 58 || c == 34 || c == 47 || c == 92 || c == 124 ||
  c == 63 || c == 42

/-- The test `c == '_'`. -/
def isUnderscore (c : Nat) : Bool := c == underscore

/-- `String.prototype.trim`. -/
def trim (s : JSString) : JSString :=
  (s.dropWhile isWhiteSpace).rdropWhile isWhiteSpace

/-- `s.replace(/[<>:"/\\|?*]/g, '_')`. -/
def replaceInvalid (s : JSString) : JSString :=
  s.map fun c => if isInvalidChar c then underscore else c

/-- A global replace of every maximal run of code units satisfying `p` by one
underscore. The flag tells whether the previous code unit belonged to a run
that has already been replaced. `replaceRuns isWhiteSpace false` is
`s.replace(/\s+/g, '_')`; `replaceRuns isUnderscore false` is
`s.replace(/_{2,}/g, '_')` (a run of one underscore is left as it is). -/
def replaceRuns (p : Nat → Bool) : Bool → JSString → JSString
  | _, [] => []
  | inRun, c :: cs =>
    if p c then
      if inRun then replaceRuns p true cs else underscore :: replaceRuns p true cs
    else c :: replaceRuns p false cs

/-- `s.replace(/^_+|_+$/g, '')`. -/
def stripUnderscores (s : JSString) : JSString :=
  (s.dropWhile isUnderscore).rdropWhile isUnderscore

/-- `s.substring(0, n)`. -/
def substring0 (n : Nat) (s : JSString) : JSString := s.take n

/-! ## Values of a parsed metadata document -/

/-- A field value of the parsed JSON document. `undefined` is an absent
field. Numbers are the integers (`year` is an integer in the data model);
arrays and nested objects are not used by the sorter and are left out. -/
inductive JSValue where
  | undefined
  | null
  | bool (b : Bool)
  | num (n : Int)
  | str (s : JSString)
  deriving DecidableEq, Repr

/-- JavaScript truthiness, as tested by `if (v)` and `!v`. -/
def JSValue.truthy : JSValue → Bool
  | .undefined => false
  | .null => false
  | .bool b => b
  | .num n => n != 0
  | .str s => !s.isEmpty

/-- Decimal digits of a natural number, most significant first. -/
def natDigits : Nat → Nat → List Nat → List Nat
  | 0, _, acc => acc
  | fuel + 1, n, acc =>
    if n < 10 then (48 + n) :: acc else natDigits fuel (n / 10) ((48 + n % 10) :: acc)

/-- The string of a natural number in a template literal. -/
def natToString (n : Nat) : JSString := natDigits (n + 1) n []

/-- The string of an integer in a template literal (decimal; exact for the
integers below `10^21` in magnitude, beyond which the engine switches to
exponent form). -/
def intToString : Int → JSString
  | .ofNat n => natToString n
  | .negSucc n => 45 :: natToString (n + 1)

/-- The string conversion of a template literal. -/
def JSValue.toJSString : JSValue → JSString
  | .undefined => js "undefined"
  | .null => js "null"
  | .bool true => js "true"
  | .bool false => js "false"
  | .num n => intToString n
  | .str s => s

/-! ## `sanitizeFolderName` -/

/-- The chain of string operations of `sanitizeFolderName`. -/
def sanitizeString (name : JSString) : JSString :=
  substring0 50
    (stripUnderscores
      (replaceRuns isUnderscore false
        (replaceRuns isWhiteSpace false
          (replaceInvalid (trim name)))))

/-- `sanitizeFolderName(name)`: the empty string for a falsy or non-string
argument, else the sanitized string. -/
def sanitizeFolderName (name : JSValue) : JSString :=
  match name with
  | .str s => if s.isEmpty then [] else sanitizeString s
  | _ => []

/-! ## `createTargetPath` -/

/-- The fields of the parsed metadata document that the sorter reads. -/
structure Metadata where
  brand : JSValue
  model : JSValue
  year : JSValue
  yearRange : JSValue
  manualType : JSValue
  deriving DecidableEq, Repr

/-- The comparison `v.length < n`: the `length` of a number or boolean is
`undefined`, and `undefined < n` is false. -/
def JSValue.lengthBelow (v : JSValue) (n : Nat) : Bool :=
  match v with
  | .str s => s.length < n
  | _ => false

/-- The local `folderName` of `createTargetPath(brand, model, metadata)` at
its `return`. -/
def targetFolderName (brand model : JSString) (metadata : Metadata) : JSString :=
  let folderName := brand
  let folderName := if !model.isEmpty then folderName ++ underscore :: model else folderName
  let folderName :=
    if metadata.yearRange.truthy then
      folderName ++ underscore :: metadata.yearRange.toJSString
    else if metadata.year.truthy then
      folderName ++ underscore :: metadata.year.toJSString
    else folderName
  if metadata.manualType.truthy && metadata.manualType != .str (js "other") &&
      metadata.manualType.lengthBelow 20 then
    let sanitizedType := sanitizeFolderName metadata.manualType
    if !sanitizedType.isEmpty then folderName ++ underscore :: sanitizedType else folderName
  else folderName

/-! ## Paths, the file system and the environment -/

/-- A path is a string. -/
abbrev Path := JSString

/-- The functions of Node's `path` module that the program calls. -/
structure PathLib where
  resolve : Path → Path
  join : Path → Path → Path
  basename : Path → JSString
  basenameWithout : Path → JSString → JSString
  extname : Path → JSString
  dirname : Path → Path
  relative : Path → Path → Path

/-- `createTargetPath(brand, model, metadata)`. -/
def createTargetPath (path : PathLib) (targetDirectory : Path) (brand model : JSString)
    (metadata : Metadata) : Path :=
  path.join targetDirectory (targetFolderName brand model metadata)

/-- What exists at a path. -/
inductive Entry where
  | dir
  | file (content : JSString)
  deriving DecidableEq, Repr

/-- The file system: the existing paths, in enumeration order, each with what
it holds. The first pair of a path counts. -/
structure FS where
  nodes : List (Path × Entry)
  deriving DecidableEq, Repr

/-- The entry at a path, if any. -/
def FS.find (fs : FS) (p : Path) : Option Entry := fs.nodes.lookup p

/-- The file system without the path `p`. -/
def FS.remove (fs : FS) (p : Path) : FS := ⟨fs.nodes.filter fun n => n.1 != p⟩

/-- `fs.existsSync(p)`. -/
def existsSync (fs : FS) (p : Path) : Bool := (fs.find p).isSome

/-- The calls of the `fs` module that can throw. -/
inductive FsOp where
  | readdir (p : Path)
  | stat (p : Path)
  | readFile (p : Path)
  | mkdir (p : Path)
  | rename (src dst : Path)
  deriving DecidableEq, Repr

/-- The exceptions of the program. -/
inductive Failure where
  | fsError (op : FsOp)
  | syntaxError
  | typeError
  | tooManyConflicts
  | moveFailed (cause : Failure)
  deriving DecidableEq, Repr

/-- The value of `JSON.parse(jsonContent)`: a `SyntaxError`, the value `null`
(reading a property of it throws a `TypeError`), or a value whose fields are
read (a field it does not have is `undefined`). -/
inductive Parsed where
  | syntaxError
  | null
  | record (metadata : Metadata)
  deriving DecidableEq, Repr

/-- What the program takes from its platform: the `path` module, the JSON
parser, and which file-system calls fail for a reason outside the model
(permissions, devices, races); such a call leaves the file system as it
was. -/
structure Env where
  path : PathLib
  parse : JSString → Parsed
  fails : FS → FsOp → Bool

/-- `readdir(dirPath)`: the names of the entries whose directory is `dirPath`. -/
def readdir (env : Env) (fs : FS) (dirPath : Path) : Except Failure (List JSString) :=
  if env.fails fs (.readdir dirPath) then .error (.fsError (.readdir dirPath))
  else match fs.find dirPath with
    | some .dir =>
      .ok (fs.nodes.filterMap fun n =>
        if n.1 != dirPath && env.path.dirname n.1 == dirPath then some (env.path.basename n.1)
        else none)
    | _ => .error (.fsError (.readdir dirPath))

/-- `stat(p)`. -/
def stat (env : Env) (fs : FS) (p : Path) : Except Failure Entry :=
  if env.fails fs (.stat p) then .error (.fsError (.stat p))
  else match fs.find p with
    | some e => .ok e
    | none => .error (.fsError (.stat p))

/-- `readFile(p, 'utf8')`. -/
def readFile (env : Env) (fs : FS) (p : Path) : Except Failure JSString :=
  if env.fails fs (.readFile p) then .error (.fsError (.readFile p))
  else match fs.find p with
    | some (.file content) => .ok content
    | _ => .error (.fsError (.readFile p))

/-- `mkdir(p, { recursive: true })`: nothing to do when the directory exists,
an error when a file is in the way. Intermediate directories are not
tracked. -/
def mkdir (env : Env) (fs : FS) (p : Path) : Except Failure FS :=
  if env.fails fs (.mkdir p) then .error (.fsError (.mkdir p))
  else match fs.find p with
    | some .dir => .ok fs
    | some (.file _) => .error (.fsError (.mkdir p))
    | none => .ok ⟨fs.nodes ++ [(p, .dir)]⟩

/-- `rename(src, dst)`: the entry at `src` is moved to `dst`, replacing what
was there. -/
def rename (env : Env) (fs : FS) (src dst : Path) : Except Failure FS :=
  if env.fails fs (.rename src dst) then .error (.fsError (.rename src dst))
  else match fs.find src with
    | some e => .ok ⟨((fs.remove src).remove dst).nodes ++ [(dst, e)]⟩
    | none => .error (.fsError (.rename src dst))

/-! ## `handleFileConflict` -/

/-- The value of `newPath` computed in the loop body for a given `counter`:
`path.join(dir, baseName + '_' + counter + ext)`. -/
def conflictCandidate (path : PathLib) (targetPath : Path) (counter : Nat) : Path :=
  let ext := path.extname targetPath
  let baseName := path.basenameWithout targetPath ext
  let dir := path.dirname targetPath
  path.join dir (baseName ++ underscore :: natToString counter ++ ext)

/-- The `do { ... } while (fs.existsSync(newPath) && counter < 100)` loop,
entered with the given `counter`; returns `newPath` and `counter` at exit. -/
def conflictLoop (path : PathLib) (fs : FS) (targetPath : Path) (counter : Nat) : Path × Nat :=
  let newPath := conflictCandidate path targetPath counter
  if existsSync fs newPath = true ∧ counter + 1 < 100 then
    conflictLoop path fs targetPath (counter + 1)
  else (newPath, counter + 1)
termination_by 100 - counter
decreasing_by omega

/-- `handleFileConflict(targetPath)`. -/
def handleFileConflict (path : PathLib) (fs : FS) (targetPath : Path) : Except Failure Path :=
  if !existsSync fs targetPath then .ok targetPath
  else
    let r := conflictLoop path fs targetPath 1
    if r.2 ≥ 100 then .error .tooManyConflicts else .ok r.1

/-! ## The bot: statistics, console, `moveFiles`, `processPDFFile` -/

/-- The counters `this.stats`. -/
structure Stats where
  processed : Nat
  moved : Nat
  errors : Nat
  skipped : Nat
  deriving DecidableEq, Repr

/-- The fields of a `ManualSorterBot`. -/
structure Bot where
  sourceDirectory : Path
  targetDirectory : Path
  stats : Stats
  dryRun : Bool
  deriving DecidableEq, Repr

/-- The constructor `new ManualSorterBot(sourceDirectory, targetDirectory)`;
`none` is the default `null` of the second argument. -/
def Bot.new (path : PathLib) (sourceDirectory : Path) (targetDirectory : Option Path) : Bot :=
  let source := path.resolve sourceDirectory
  { sourceDirectory := source
    targetDirectory :=
      match targetDirectory with
      | some t => if !t.isEmpty then path.resolve t else source
      | none => source
    stats := ⟨0, 0, 0, 0⟩
    dryRun := false }

/-- `setDryRun(enabled)`. -/
def Bot.setDryRun (bot : Bot) (enabled : Bool) : Bot := { bot with dryRun := enabled }

/-- The lines written to the console, by the call that writes them. -/
inductive Line where
  | processing (filename : JSString)
  | noMetadata (filename : JSString)
  | noBrand (filename : JSString)
  | wouldMoveTo (relativeFolder : Path)
  | movedTo (relativeFolder : Path)
  | errorProcessing (filename : JSString) (error : Failure)
  | skippingTarget (item : JSString)
  | errorDirectory (dirPath : Path) (error : Failure)
  | summary (stats : Stats) (dryRun : Bool)
  deriving DecidableEq, Repr

/-- The state a run acts on: the bot, the file system and the console. -/
structure Run where
  bot : Bot
  fs : FS
  console : List Line
  deriving DecidableEq, Repr

/-- The statement `console.log(line)`. -/
def Run.log (r : Run) (line : Line) : Run := { r with console := r.console ++ [line] }

/-- The statement `this.stats.processed++`. -/
def Run.countProcessed (r : Run) : Run :=
  { r with bot := { r.bot with stats := { r.bot.stats with processed := r.bot.stats.processed + 1 } } }

/-- The statement `this.stats.moved++`. -/
def Run.countMoved (r : Run) : Run :=
  { r with bot := { r.bot with stats := { r.bot.stats with moved := r.bot.stats.moved + 1 } } }

/-- The statement `this.stats.errors++`. -/
def Run.countError (r : Run) : Run :=
  { r with bot := { r.bot with stats := { r.bot.stats with errors := r.bot.stats.errors + 1 } } }

/-- The statement `this.stats.skipped++`. -/
def Run.countSkipped (r : Run) : Run :=
  { r with bot := { r.bot with stats := { r.bot.stats with skipped := r.bot.stats.skipped + 1 } } }

/-- `moveFiles(pdfPath, jsonPath, targetFolderPath)`: the file system it
leaves, and the error it throws if it fails. -/
def moveFiles (env : Env) (fs : FS) (pdfPath jsonPath targetFolderPath : Path) :
    FS × Option Failure :=
  match mkdir env fs targetFolderPath with
  | .error e => (fs, some (.moveFailed e))
  | .ok fs1 =>
    let pdfFileName := env.path.basename pdfPath
    let jsonFileName := env.path.basename jsonPath
    let targetPdfPath := env.path.join targetFolderPath pdfFileName
    let targetJsonPath := env.path.join targetFolderPath jsonFileName
    match handleFileConflict env.path fs1 targetPdfPath with
    | .error e => (fs1, some (.moveFailed e))
    | .ok finalPdfPath =>
      match handleFileConflict env.path fs1 targetJsonPath with
      | .error e => (fs1, some (.moveFailed e))
      | .ok finalJsonPath =>
        match rename env fs1 pdfPath finalPdfPath with
        | .error e => (fs1, some (.moveFailed e))
        | .ok fs2 =>
          if existsSync fs2 jsonPath then
            match rename env fs2 jsonPath finalJsonPath with
            | .error e => (fs2, some (.moveFailed e))
            | .ok fs3 => (fs3, none)
          else (fs2, none)

/-- The match of `/\.pdf$/i`: the four code units `.`, `p|P`, `d|D`, `f|F`. -/
def isPdfSuffix (s : JSString) : Bool :=
  match s with
  | [a, b, c, d] =>
    a == 46 && (b == 112 || b == 80) && (c == 100 || c == 68) && (d == 102 || d == 70)
  | _ => false

/-- `pdfPath.replace(/\.pdf$/i, '.json')`. -/
def replacePdfSuffix (pdfPath : Path) : Path :=
  if isPdfSuffix (pdfPath.drop (pdfPath.length - 4)) then
    pdfPath.take (pdfPath.length - 4) ++ js ".json"
  else pdfPath

/-- What `processPDFFile` has reached when it is about to test `this.dryRun`:
it has returned because the metadata file is missing or the brand is empty,
an exception was thrown inside the `try`, or `targetFolderPath` is computed. -/
inductive Plan where
  | noMetadata
  | threw (error : Failure)
  | noBrand
  | target (targetFolderPath : Path)
  deriving DecidableEq, Repr

/-- The statements of `processPDFFile` from the `existsSync` test to the
call of `createTargetPath`; of the bot they read `this.targetDirectory`. -/
def planTarget (env : Env) (targetDirectory : Path) (fs : FS) (jsonPath : Path) : Plan :=
  if !existsSync fs jsonPath then .noMetadata
  else
    match readFile env fs jsonPath with
    | .error e => .threw e
    | .ok jsonContent =>
      match env.parse jsonContent with
      | .syntaxError => .threw .syntaxError
      | .null => .threw .typeError
      | .record metadata =>
        let brand := sanitizeFolderName metadata.brand
        let model := sanitizeFolderName metadata.model
        if brand.isEmpty then .noBrand
        else .target (createTargetPath env.path targetDirectory brand model metadata)

/-- `processPDFFile(pdfPath)`. -/
def processPDFFile (env : Env) (r : Run) (pdfPath : Path) : Run :=
  let r := r.countProcessed
  let filename := env.path.basename pdfPath
  let jsonPath := replacePdfSuffix pdfPath
  let r := r.log (.processing filename)
  match planTarget env r.bot.targetDirectory r.fs jsonPath with
  | .noMetadata => (r.log (.noMetadata filename)).countSkipped
  | .threw e => (r.log (.errorProcessing filename e)).countError
  | .noBrand => (r.log (.noBrand filename)).countSkipped
  | .target targetFolderPath =>
    if r.bot.dryRun then
      r.log (.wouldMoveTo (env.path.relative r.bot.targetDirectory targetFolderPath))
    else
      match moveFiles env r.fs pdfPath jsonPath targetFolderPath with
      | (fs, some e) => ({ r with fs := fs }.log (.errorProcessing filename e)).countError
      | (fs, none) =>
        ({ r with fs := fs }.log
          (.movedTo (env.path.relative r.bot.targetDirectory targetFolderPath))).countMoved

/-! ## The walker: `isTargetDirectory`, `processDirectory`, `sort` -/

/-- Code units of `[A-Za-z]`. -/
def isAsciiLetter (c : Nat) : Bool := (65 ≤ c && c ≤ 90) || (97 ≤ c && c ≤ 122)

/-- Code units of `[0-9]`. -/
def isAsciiDigit (c : Nat) : Bool := 48 ≤ c && c ≤ 57

/-- Code units of the class `[A-Za-z0-9\s\-_]`. -/
def isBrandDirChar (c : Nat) : Bool :=
  isAsciiLetter c || isAsciiDigit c || isWhiteSpace c || c == 45 || c == underscore

/-- The test `/^[A-Za-z][A-Za-z0-9\s\-_]*$/.test(dirName)`. -/
def matchesBrandDir (dirName : JSString) : Bool :=
  match dirName with
  | [] => false
  | c :: cs => isAsciiLetter c && cs.all isBrandDirChar

/-- `isTargetDirectory(dirName)`. -/
def isTargetDirectory (dirName : JSString) : Bool :=
  let looksLikeBrandDir := matchesBrandDir dirName && dirName.length > 2 && dirName.length < 30
  looksLikeBrandDir

/-- `String.prototype.toLowerCase` on the ASCII letters; a code unit outside
ASCII never becomes one of `.`, `p`, `d`, `f`, so the comparison with
`'.pdf'` below does not depend on how it is mapped. -/
def toLowerCase (s : JSString) : JSString :=
  s.map fun c => if 65 ≤ c && c ≤ 90 then c + 32 else c

/-- What the loop body of `processDirectory` does with an item. -/
inductive ItemAction where
  | skip
  | descend
  | processPdf
  | ignore
  deriving DecidableEq, Repr

/-- The branch the loop body of `processDirectory` takes for `item`, given
what `stat` found at its path. -/
def itemAction (path : PathLib) (itemStat : Entry) (item : JSString) : ItemAction :=
  match itemStat with
  | .dir => if isTargetDirectory item then .skip else .descend
  | .file _ => if toLowerCase (path.extname item) == js ".pdf" then .processPdf else .ignore

/-- The `for (const item of items)` loop of `processDirectory`; `descend` is
the recursive call. An exception (of `stat`) ends the loop with the state
reached so far. -/
def processItems (env : Env) (descend : Run → Path → Run) (dirPath : Path) :
    List JSString → Run → Run × Option Failure
  | [], r => (r, none)
  | item :: items, r =>
    let itemPath := env.path.join dirPath item
    match stat env r.fs itemPath with
    | .error e => (r, some e)
    | .ok itemStat =>
      match itemAction env.path itemStat item with
      | .skip => processItems env descend dirPath items (r.log (.skippingTarget item))
      | .descend => processItems env descend dirPath items (descend r itemPath)
      | .processPdf => processItems env descend dirPath items (processPDFFile env r itemPath)
      | .ignore => processItems env descend dirPath items r

/-- `processDirectory(dirPath)`. The first argument bounds the nesting of the
recursion: a directory nested deeper than that cannot be listed (its path is
too long for `readdir`), which is an error like any other failure to list. -/
def processDirectory (env : Env) : Nat → Run → Path → Run
  | 0, r, dirPath =>
    (r.log (.errorDirectory dirPath (.fsError (.readdir dirPath)))).countError
  | depth + 1, r, dirPath =>
    match readdir env r.fs dirPath with
    | .error e => (r.log (.errorDirectory dirPath e)).countError
    | .ok items =>
      match processItems env (processDirectory env depth) dirPath items r with
      | (r, some e) => (r.log (.errorDirectory dirPath e)).countError
      | (r, none) => r

/-- `sort()`: walk the source directory, then print the summary. -/
def sort (env : Env) (depth : Nat) (r : Run) : Run :=
  let r := processDirectory env depth r r.bot.sourceDirectory
  r.log (.summary r.bot.stats r.bot.dryRun)

/-! ## A concrete `path` module for the examples -/

/-- The last segment of a path: what follows its last `/`. -/
def lastSegment (p : Path) : JSString := (p.reverse.takeWhile fun c => c != 47).reverse

/-- The extension of a file name: from its last `.` on, unless there is no
`.` or the name starts with it. -/
def segmentExt (name : JSString) : JSString :=
  let afterDot := (name.reverse.takeWhile fun c => c != 46).reverse
  if afterDot.length + 1 < name.length then 46 :: afterDot else []

/-- The POSIX `path` functions on absolute, normalized paths without a
trailing slash (on which `join` has nothing to normalize and `resolve` is
the identity). -/
def simplePath : PathLib where
  resolve := fun p => p
  join := fun a b => a ++ 47 :: b
  basename := lastSegment
  basenameWithout := fun p ext =>
    let name := lastSegment p
    if !ext.isEmpty && ext.length < name.length && ext.isSuffixOf name then
      name.take (name.length - ext.length)
    else name
  extname := fun p => segmentExt (lastSegment p)
  dirname := fun p =>
    let dir := ((p.reverse.dropWhile fun c => c != 47).drop 1).reverse
    if dir.isEmpty then [47] else dir
  relative := fun a b => if (a ++ [47]).isPrefixOf b then b.drop (a.length + 1) else b

/-! ## The demo records of `demo-example.js` -/

/-- The first record of `examples`. -/
def hondaMetadata : Metadata where
  brand := .str (js "Honda")
  model := .str (js "CBR600RR")
  year := .undefined
  yearRange := .str (js "2003-2006")
  manualType := .str (js "workshop manual")

/-- The second record of `examples`. -/
def yamahaMetadata : Metadata where
  brand := .str (js "Yamaha")
  model := .str (js "YZF-R1")
  year := .num 2009
  yearRange := .undefined
  manualType := .str (js "owner manual")

/-- The third record of `examples`. -/
def kawasakiMetadata : Metadata where
  brand := .str (js "Kawasaki")
  model := .str (js "Ninja 250")
  year := .null
  yearRange := .null
  manualType := .str (js "parts catalog")

/-- The fourth record of `examples`. -/
def bmwMetadata : Metadata where
  brand := .str (js "BMW")
  model := .str (js "R1200GS")
  year := .null
  yearRange := .str (js "2013-2016")
  manualType := .str (js "other")

/-- The folder name the `--test` run of `demo-example.js` generates for a
record: `basename(createTargetPath(sanitize(brand), sanitize(model), metadata))`. -/
def demoFolderName (metadata : Metadata) : JSString :=
  targetFolderName (sanitizeFolderName metadata.brand) (sanitizeFolderName metadata.model) metadata

/-! ## The folder name in the words of the specification -/

/-- A field is present when the record has it with a value other than `null`. -/
def JSValue.present : JSValue → Bool
  | .undefined => false
  | .null => false
  | _ => true

/-- The folder name as the specification words it: brand; then model if
non-empty; then `yearRange` if present, else `year` if present; then the
sanitized `manualType` if it is present, is not `"other"`, is shorter than 20
characters and sanitizes to a non-empty string. -/
def specFolderName (brand model : JSString) (metadata : Metadata) : JSString :=
  brand ++
  (if model ≠ [] then underscore :: model else []) ++
  (if metadata.yearRange.present then underscore :: metadata.yearRange.toJSString
   else if metadata.year.present then underscore :: metadata.year.toJSString
   else []) ++
  (if metadata.manualType.present ∧ metadata.manualType ≠ .str (js "other") ∧
      metadata.manualType.toJSString.length < 20 ∧
      sanitizeFolderName metadata.manualType ≠ [] then
    underscore :: sanitizeFolderName metadata.manualType
   else [])

/-- The same wording with the two year fields tested for truthiness (present,
not `null`, and neither the empty string, `0` nor `false`) instead of
presence. -/
def truthyFolderName (brand model : JSString) (metadata : Metadata) : JSString :=
  brand ++
  (if model ≠ [] then underscore :: model else []) ++
  (if metadata.yearRange.truthy then underscore :: metadata.yearRange.toJSString
   else if metadata.year.truthy then underscore :: metadata.year.toJSString
   else []) ++
  (if metadata.manualType.present ∧ metadata.manualType ≠ .str (js "other") ∧
      metadata.manualType.toJSString.length < 20 ∧
      sanitizeFolderName metadata.manualType ≠ [] then
    underscore :: sanitizeFolderName metadata.manualType
   else [])

/-! ## Concrete file systems for the examples -/

/-- A folder `/sorted` holding `name.pdf` and `name_1.pdf`, ..., `name_n.pdf`. -/
def conflictFolder (n : Nat) : FS :=
  ⟨(js "/sorted", .dir) :: (js "/sorted/name.pdf", .file []) ::
    (List.range n).map fun i =>
      (js "/sorted/name_" ++ natToString (i + 1) ++ js ".pdf", Entry.file [])⟩

/-- The text of the metadata file of the first demo record. -/
def hondaJson : JSString := js "Honda_CBR600RR_Service.json: the first demo record"

/-- A source directory with the first demo pair and a PDF without metadata. -/
def demoSource : FS :=
  ⟨[(js "/manuals", .dir),
    (js "/manuals/Honda_CBR600RR_Service.pdf", .file (js "%PDF-1.4")),
    (js "/manuals/Honda_CBR600RR_Service.json", .file hondaJson),
    (js "/manuals/Lonely.PDF", .file (js "%PDF-1.4"))]⟩

/-- A platform for the examples: the POSIX paths, a parser that reads
`hondaJson` as the first demo record, and the given failing calls. -/
def demoEnv (failing : FsOp → Bool) : Env where
  path := simplePath
  parse := fun text => if text = hondaJson then .record hondaMetadata else .syntaxError
  fails := fun _ op => failing op

/-- A fresh bot on `/manuals`, sorting in place, before its first file. -/
def demoRun (dryRun : Bool) : Run where
  bot := (Bot.new simplePath (js "/manuals") none).setDryRun dryRun
  fs := demoSource
  console := []

/-- The call `rename` of the metadata file of the first demo pair fails. -/
def metadataRenameFails (op : FsOp) : Bool :=
  match op with
  | .rename src _ => src == js "/manuals/Honda_CBR600RR_Service.json"
  | _ => false

/-- The call `rename` of the PDF of the first demo pair fails. -/
def pdfRenameFails (op : FsOp) : Bool :=
  match op with
  | .rename src _ => src == js "/manuals/Honda_CBR600RR_Service.pdf"
  | _ => false

/-- No call fails. -/
def nothingFails (_ : FsOp) : Bool := false

/-! ## The target-folder heuristic in the words of the specification -/

/-- The heuristic as the specification words it: the name starts with a
letter, is composed only of letters, digits, space, hyphen and underscore, and
its length is strictly between 2 and 30. -/
def specTargetName (name : JSString) : Bool :=
  (match name.head? with
   | some c => isAsciiLetter c
   | none => false) &&
  name.all (fun c => isAsciiLetter c || isAsciiDigit c || c == 32 || c == 45 || c == underscore) &&
  decide (2 < name.length) && decide (name.length < 30)

/-- The same wording with any white space character (`\s`) in place of the
space. -/
def whiteSpaceTargetName (name : JSString) : Bool :=
  (match name.head? with
   | some c => isAsciiLetter c
   | none => false) &&
  name.all (fun c =>
    isAsciiLetter c || isAsciiDigit c || isWhiteSpace c || c == 45 || c == underscore) &&
  decide (2 < name.length) && decide (name.length < 30)

/-! ## Auxiliary predicate -/

/-- Two adjacent underscores somewhere in the string. -/
def adjacentUnderscores : JSString → Bool
  | a :: b :: rest => (a == underscore && b == underscore) || adjacentUnderscores (b :: rest)
  | _ => false

/-! ## Lemmas on the string operations -/

theorem underscore_not_invalid : isInvalidChar underscore = false := by decide

theorem underscore_not_white : isWhiteSpace underscore = false := by decide

theorem mem_dropWhile {p : Nat → Bool} {s : JSString} {c : Nat}
    (h : c ∈ s.dropWhile p) : c ∈ s :=
  (List.dropWhile_sublist p).subset h

theorem mem_rdropWhile {p : Nat → Bool} {s : JSString} {c : Nat}
    (h : c ∈ s.rdropWhile p) : c ∈ s :=
  (List.rdropWhile_prefix p s).subset h

theorem mem_trim {s : JSString} {c : Nat} (h : c ∈ trim s) : c ∈ s :=
  mem_dropWhile (mem_rdropWhile h)

theorem mem_stripUnderscores {s : JSString} {c : Nat} (h : c ∈ stripUnderscores s) : c ∈ s :=
  mem_dropWhile (mem_rdropWhile h)

theorem mem_replaceRuns {p : Nat → Bool} {c : Nat} :
    ∀ (s : JSString) (b : Bool), c ∈ replaceRuns p b s → c = underscore ∨ (c ∈ s ∧ p c = false) := by
  intro s
  induction s with
  | nil => intro b h; simp [replaceRuns] at h
  | cons a t ih =>
    intro b h
    unfold replaceRuns at h
    by_cases hp : p a = true
    · simp only [hp, if_true] at h
      cases b with
      | true =>
        simp only [if_true] at h
        rcases ih true h with h1 | ⟨h1, h2⟩
        · exact Or.inl h1
        · exact Or.inr ⟨List.mem_cons_of_mem _ h1, h2⟩
      | false =>
        simp only [Bool.false_eq_true, if_false, List.mem_cons] at h
        rcases h with h | h
        · exact Or.inl h
        · rcases ih true h with h1 | ⟨h1, h2⟩
          · exact Or.inl h1
          · exact Or.inr ⟨List.mem_cons_of_mem _ h1, h2⟩
    · rw [if_neg hp, List.mem_cons] at h
      rcases h with h | h
      · subst h
        exact Or.inr ⟨List.mem_cons_self _ _, by simpa using hp⟩
      · rcases ih false h with h1 | ⟨h1, h2⟩
        · exact Or.inl h1
        · exact Or.inr ⟨List.mem_cons_of_mem _ h1, h2⟩

theorem mem_replaceInvalid {s : JSString} {c : Nat} (h : c ∈ replaceInvalid s) :
    isInvalidChar c = false := by
  unfold replaceInvalid at h
  rcases List.mem_map.1 h with ⟨a, _, rfl⟩
  by_cases ha : isInvalidChar a = true
  · simp [ha, underscore_not_invalid]
  · simp [ha]

/-- No code unit of the sanitized string is in the class `[<>:"/\\|?*]`. -/
theorem sanitizeString_valid {s : JSString} {c : Nat} (h : c ∈ sanitizeString s) :
    isInvalidChar c = false := by
  unfold sanitizeString substring0 at h
  have h1 := mem_stripUnderscores (List.mem_of_mem_take h)
  rcases mem_replaceRuns _ _ h1 with h2 | ⟨h2, _⟩
  · rw [h2]; exact underscore_not_invalid
  · rcases mem_replaceRuns _ _ h2 with h3 | ⟨h3, _⟩
    · rw [h3]; exact underscore_not_invalid
    · exact mem_replaceInvalid h3

/-- No code unit of the sanitized string is white space. -/
theorem sanitizeString_not_white {s : JSString} {c : Nat} (h : c ∈ sanitizeString s) :
    isWhiteSpace c = false := by
  unfold sanitizeString substring0 at h
  have h1 := mem_stripUnderscores (List.mem_of_mem_take h)
  rcases mem_replaceRuns _ _ h1 with h2 | ⟨h2, _⟩
  · rw [h2]; exact underscore_not_white
  · rcases mem_replaceRuns _ _ h2 with h3 | ⟨_, h3⟩
    · rw [h3]; exact underscore_not_white
    · exact h3

theorem adjacent_cons (a : Nat) (t : JSString) :
    adjacentUnderscores (a :: t) = false ↔
      ¬(a = underscore ∧ t.head? = some underscore) ∧ adjacentUnderscores t = false := by
  cases t with
  | nil => simp [adjacentUnderscores]
  | cons b r => simp [adjacentUnderscores]

theorem adjacent_append (l r : JSString) (h : adjacentUnderscores (l ++ r) = false) :
    adjacentUnderscores l = false ∧ adjacentUnderscores r = false := by
  induction l with
  | nil => exact ⟨rfl, by simpa using h⟩
  | cons a t ih =>
    rw [List.cons_append, adjacent_cons] at h
    obtain ⟨h1, h2⟩ := h
    obtain ⟨ih1, ih2⟩ := ih h2
    refine ⟨?_, ih2⟩
    rw [adjacent_cons]
    refine ⟨?_, ih1⟩
    rintro ⟨ha, ht⟩
    apply h1
    refine ⟨ha, ?_⟩
    cases t with
    | nil => simp at ht
    | cons b t => simpa using ht

/-- The string has no occurrence of two consecutive underscores. -/
theorem no_run_of_adjacent {s : JSString} (h : adjacentUnderscores s = false)
    (l r : JSString) : s ≠ l ++ underscore :: underscore :: r := by
  intro hs
  rw [hs] at h
  have h2 := (adjacent_append l _ h).2
  simp [adjacentUnderscores] at h2

theorem head_of_append {l t : JSString} {x : Nat} (h : l.head? = some x) :
    (l ++ t).head? = some x := by
  cases l with
  | nil => simp at h
  | cons a l => simpa using h

theorem dropWhile_of_head {p : Nat → Bool} {s : JSString}
    (h : ∀ c, s.head? = some c → p c = false) : s.dropWhile p = s := by
  cases s with
  | nil => rfl
  | cons a t => simp [List.dropWhile, h a (by simp)]

theorem rdropWhile_of_last {p : Nat → Bool} {s : JSString}
    (h : ∀ c, s.getLast? = some c → p c = false) : s.rdropWhile p = s := by
  unfold List.rdropWhile
  rw [dropWhile_of_head]
  · simp
  · intro c hc
    exact h c (by simpa using hc)

theorem head_dropWhile {p : Nat → Bool} {s : JSString} {c : Nat}
    (h : (s.dropWhile p).head? = some c) : p c = false := by
  have := List.head?_dropWhile_not p s
  rw [h] at this
  exact this

theorem head_rdropWhile {p : Nat → Bool} {s : JSString} {c : Nat}
    (h : (s.rdropWhile p).head? = some c) : s.head? = some c := by
  obtain ⟨t, ht⟩ := List.rdropWhile_prefix p s
  rw [← ht]
  exact head_of_append h

theorem head_take {n : Nat} {s : JSString} {c : Nat}
    (h : (s.take n).head? = some c) : s.head? = some c := by
  rw [← List.take_append_drop n s]
  exact head_of_append h

theorem replaceRuns_underscore (s : JSString) :
    ∀ b : Bool, adjacentUnderscores (replaceRuns isUnderscore b s) = false ∧
      (b = true → (replaceRuns isUnderscore b s).head? ≠ some underscore) := by
  induction s with
  | nil => intro b; simp [replaceRuns, adjacentUnderscores]
  | cons a t ih =>
    intro b
    unfold replaceRuns
    by_cases hp : isUnderscore a = true
    · rw [if_pos hp]
      cases b with
      | true => simpa using ih true
      | false =>
        have := ih true
        simp only [Bool.false_eq_true, if_false, adjacent_cons]
        exact ⟨⟨fun h => this.2 rfl h.2, this.1⟩, fun h => by simp at h⟩
    · rw [if_neg hp]
      have ha : a ≠ underscore := by simpa [isUnderscore] using hp
      rw [adjacent_cons]
      exact ⟨⟨fun h => ha h.1, (ih false).1⟩, fun _ => by simpa using ha⟩

/-- The sanitized string has no two adjacent underscores. -/
theorem sanitizeString_adjacent (s : JSString) :
    adjacentUnderscores (sanitizeString s) = false := by
  unfold sanitizeString substring0 stripUnderscores
  set u := replaceRuns isUnderscore false (replaceRuns isWhiteSpace false (replaceInvalid (trim s)))
  have hu : adjacentUnderscores u = false := (replaceRuns_underscore _ false).1
  have h1 : adjacentUnderscores (u.dropWhile isUnderscore) = false := by
    have := List.takeWhile_append_dropWhile isUnderscore u
    rw [← this] at hu
    exact (adjacent_append _ _ hu).2
  have h2 : adjacentUnderscores ((u.dropWhile isUnderscore).rdropWhile isUnderscore) = false := by
    obtain ⟨t, ht⟩ := List.rdropWhile_prefix isUnderscore (u.dropWhile isUnderscore)
    rw [← ht] at h1
    exact (adjacent_append _ _ h1).1
  rw [← List.take_append_drop 50 ((u.dropWhile isUnderscore).rdropWhile isUnderscore)] at h2
  exact (adjacent_append _ _ h2).1

/-- The sanitized string does not begin with an underscore. -/
theorem sanitizeString_head (s : JSString) : (sanitizeString s).head? ≠ some underscore := by
  intro h
  unfold sanitizeString substring0 stripUnderscores at h
  have := head_dropWhile (head_rdropWhile (head_take h))
  simp [isUnderscore] at this

theorem sanitizeString_length (s : JSString) : (sanitizeString s).length ≤ 50 := by
  unfold sanitizeString substring0
  exact List.length_take_le 50 _

theorem map_of_fixed {f : Nat → Nat} {s : JSString} (h : ∀ c ∈ s, f c = c) : s.map f = s := by
  induction s with
  | nil => rfl
  | cons a t ih =>
    rw [List.map_cons, h a (List.mem_cons_self _ _),
      ih fun c hc => h c (List.mem_cons_of_mem _ hc)]

theorem replaceRuns_of_none {p : Nat → Bool} (s : JSString) (h : ∀ c ∈ s, p c = false) :
    ∀ b : Bool, replaceRuns p b s = s := by
  induction s with
  | nil => intro b; rfl
  | cons a t ih =>
    intro b
    unfold replaceRuns
    have ha : ¬ (p a = true) := by simp [h a (List.mem_cons_self _ _)]
    rw [if_neg ha, ih (fun c hc => h c (List.mem_cons_of_mem _ hc))]

theorem replaceRuns_of_adjacent (s : JSString) :
    ∀ b : Bool, adjacentUnderscores s = false → (b = true → s.head? ≠ some underscore) →
      replaceRuns isUnderscore b s = s := by
  induction s with
  | nil => intro b _ _; rfl
  | cons a t ih =>
    intro b hadj hb
    rw [adjacent_cons] at hadj
    unfold replaceRuns
    by_cases hp : isUnderscore a = true
    · have ha : a = underscore := by simpa [isUnderscore] using hp
      rw [if_pos hp]
      cases b with
      | true => exact absurd (by simp [ha]) (hb rfl)
      | false =>
        simp only [Bool.false_eq_true, if_false]
        rw [ih true hadj.2 (fun _ ht => hadj.1 ⟨ha, ht⟩), ha]
    · rw [if_neg hp, ih false hadj.2 (fun h => by simp at h)]

/-- Sanitizing again changes nothing when the string is sanitized and does
not end with an underscore. -/
theorem sanitizeString_fixed (x : JSString)
    (hlast : (sanitizeString x).getLast? ≠ some underscore) :
    sanitizeString (sanitizeString x) = sanitizeString x := by
  set s := sanitizeString x with hs
  have hw : ∀ c ∈ s, isWhiteSpace c = false := fun c hc => sanitizeString_not_white hc
  have hv : ∀ c ∈ s, isInvalidChar c = false := fun c hc => sanitizeString_valid hc
  have hadj : adjacentUnderscores s = false := sanitizeString_adjacent x
  have hhead : s.head? ≠ some underscore := sanitizeString_head x
  have hlen : s.length ≤ 50 := sanitizeString_length x
  have htrim : trim s = s := by
    unfold trim
    rw [dropWhile_of_head, rdropWhile_of_last]
    · intro c hc; exact hw c (List.mem_of_getLast?_eq_some hc)
    · intro c hc; exact hw c (List.mem_of_mem_head? hc)
  have hrep : replaceInvalid s = s := by
    unfold replaceInvalid
    exact map_of_fixed fun c hc => by simp [hv c hc]
  have hstrip : stripUnderscores s = s := by
    unfold stripUnderscores
    rw [dropWhile_of_head, rdropWhile_of_last]
    · intro c hc
      have : c ≠ underscore := fun h => hlast (h ▸ hc)
      simpa [isUnderscore] using this
    · intro c hc
      have : c ≠ underscore := fun h => hhead (h ▸ hc)
      simpa [isUnderscore] using this
  show sanitizeString s = s
  unfold sanitizeString substring0
  rw [htrim, hrep, replaceRuns_of_none s hw, replaceRuns_of_adjacent s false hadj (by simp),
    hstrip, List.take_of_length_le hlen]

/-- Whatever the argument, no code unit of `sanitizeFolderName`'s result is
in the class `[<>:"/\\|?*]`. -/
theorem sanitizeFolderName_valid (name : JSValue) (c : Nat)
    (h : c ∈ sanitizeFolderName name) : isInvalidChar c = false := by
  unfold sanitizeFolderName at h
  split at h
  · split at h
    · simp at h
    · exact sanitizeString_valid h
  · simp at h

theorem sanitizeFolderName_eq (name : JSValue) :
    sanitizeFolderName name = [] ∨ ∃ s, sanitizeFolderName name = sanitizeString s := by
  unfold sanitizeFolderName
  split
  · split
    · exact Or.inl rfl
    · exact Or.inr ⟨_, rfl⟩
  · exact Or.inl rfl

/-- Sanitizing a sanitized name again returns it unchanged, provided it does
not end with an underscore. -/
theorem sanitizeFolderName_fixed (x : JSValue)
    (hlast : (sanitizeFolderName x).getLast? ≠ some underscore) :
    sanitizeFolderName (.str (sanitizeFolderName x)) = sanitizeFolderName x := by
  rcases sanitizeFolderName_eq x with h | ⟨s, h⟩
  · rw [h]; rfl
  · rw [h] at hlast ⊢
    show (if (sanitizeString s).isEmpty then [] else sanitizeString (sanitizeString s)) = _
    split
    · rename_i he
      exact (List.isEmpty_iff.1 he).symm
    · exact sanitizeString_fixed s hlast

/-! ## The claims on `sanitizeFolderName` -/

/-- C2: for every argument, the result of `sanitizeFolderName` contains none
of the characters `<` `>` `:` `"` `/` `\` `|` `?` `*` (code units 60, 62, 58,
34, 47, 92, 124, 63, 42). -/
theorem sanitizeFolderName_no_invalid_chars (name : JSValue) :
    ([60, 62, 58, 34, 47, 92, 124, 63, 42].all fun c =>
      !(sanitizeFolderName name).contains c) = true := by
  have key : ∀ c, isInvalidChar c = true → (sanitizeFolderName name).contains c = false := by
    intro c hc
    by_contra hcon
    have hmem : c ∈ sanitizeFolderName name := by simpa using hcon
    have := sanitizeFolderName_valid name c hmem
    rw [hc] at this
    exact absurd this (by decide)
  simp only [List.all_cons, List.all_nil, Bool.and_true, Bool.and_eq_true, Bool.not_eq_true']
  refine ⟨key 60 (by decide), key 62 (by decide), key 58 (by decide), key 34 (by decide),
    key 47 (by decide), key 92 (by decide), key 124 (by decide), key 63 (by decide),
    key 42 (by decide)⟩

/-- C3: for every argument the result of `sanitizeFolderName` has at most 50
code units, does not begin with an underscore and has no two consecutive
underscores; but it can END with an underscore: for 49 letters `a` followed
by `_b` the result is the 49 letters followed by `_`, because the cut at 50
comes after the underscores at the ends were stripped. -/
theorem sanitizeFolderName_trailing_underscore :
    (∀ name : JSValue,
      (sanitizeFolderName name).length ≤ 50 ∧
      (sanitizeFolderName name).head? ≠ some underscore ∧
      ∀ l r : JSString, sanitizeFolderName name ≠ l ++ underscore :: underscore :: r) ∧
    sanitizeFolderName (.str (List.replicate 49 97 ++ js "_b")) =
      List.replicate 49 97 ++ js "_" ∧
    (sanitizeFolderName (.str (List.replicate 49 97 ++ js "_b"))).getLast? = some underscore := by
  refine ⟨?_, by decide, by decide⟩
  intro name
  rcases sanitizeFolderName_eq name with h | ⟨s, h⟩
  · rw [h]
    refine ⟨by simp, by simp, ?_⟩
    intro l r hlr
    cases l <;> simp at hlr
  · rw [h]
    exact ⟨sanitizeString_length s, sanitizeString_head s,
      no_run_of_adjacent (sanitizeString_adjacent s)⟩

/-- C8: `sanitizeFolderName` is not idempotent on all of its results: the
result for 49 letters `a` followed by `_b` is non-empty, has 50 code units,
and sanitizing it again drops its last code unit. -/
theorem sanitizeFolderName_not_idempotent :
    sanitizeFolderName (.str (List.replicate 49 97 ++ js "_b")) ≠ [] ∧
    (sanitizeFolderName (.str (List.replicate 49 97 ++ js "_b"))).length = 50 ∧
    sanitizeFolderName (.str (sanitizeFolderName (.str (List.replicate 49 97 ++ js "_b")))) =
      List.replicate 49 97 ∧
    sanitizeFolderName (.str (sanitizeFolderName (.str (List.replicate 49 97 ++ js "_b")))) ≠
      sanitizeFolderName (.str (List.replicate 49 97 ++ js "_b")) := by
  decide

/-! ## The claim on `createTargetPath` -/

/-- C1, as amended: for every brand, model and metadata record, the folder
name `createTargetPath` joins onto the target directory is brand; then `_` and
model if model is non-empty; then `_` and `yearRange` if `yearRange` is
truthy, else `_` and `year` if `year` is truthy; then `_` and the sanitized
`manualType` if `manualType` is present, is not `"other"`, is shorter than
20 characters and sanitizes to a non-empty string. The four demo records give
the four folder names of the demo. -/
theorem createTargetPath_folder_name :
    (∀ (path : PathLib) (targetDirectory : Path) (brand model : JSString) (metadata : Metadata),
      createTargetPath path targetDirectory brand model metadata =
        path.join targetDirectory (truthyFolderName brand model metadata)) ∧
    demoFolderName hondaMetadata = js "Honda_CBR600RR_2003-2006_workshop_manual" ∧
    demoFolderName yamahaMetadata = js "Yamaha_YZF-R1_2009_owner_manual" ∧
    demoFolderName kawasakiMetadata = js "Kawasaki_Ninja_250_parts_catalog" ∧
    demoFolderName bmwMetadata = js "BMW_R1200GS_2013-2016" := by
  refine ⟨?_, by decide, by decide, by decide, by decide⟩
  intro path targetDirectory brand model metadata
  unfold createTargetPath
  congr 1
  unfold targetFolderName truthyFolderName
  have hm : (!model.isEmpty) = true ↔ model ≠ [] := by cases model <;> simp
  simp only [hm]
  generalize metadata.yearRange.truthy = yrTruthy
  generalize metadata.yearRange.toJSString = yrText
  generalize metadata.year.truthy = yTruthy
  generalize metadata.year.toJSString = yText
  by_cases h1 : model ≠ [] <;> cases yrTruthy <;> cases yTruthy <;>
    cases metadata.manualType <;>
    simp [h1, JSValue.truthy, JSValue.present, JSValue.lengthBelow,
      JSValue.toJSString, sanitizeFolderName]
  all_goals
    rename_i t
    by_cases ht : t = [] <;> by_cases ho : t = js "other" <;>
      by_cases hl : t.length < 20 <;> by_cases hs : sanitizeString t = [] <;>
      simp [ht, ho, hl, hs]

/-- C1, as stated, fails: with `year: 0` the code appends no year although
the field is present, and with `yearRange: ""` and `year: 2009` the code
appends the year although `yearRange` is present. -/
theorem createTargetPath_presence_counterexample :
    sanitizeFolderName (.str (js "Honda")) = js "Honda" ∧
    targetFolderName (js "Honda") []
      ⟨.str (js "Honda"), .undefined, .num 0, .undefined, .undefined⟩ = js "Honda" ∧
    specFolderName (js "Honda") []
      ⟨.str (js "Honda"), .undefined, .num 0, .undefined, .undefined⟩ = js "Honda_0" ∧
    targetFolderName (js "Honda") []
      ⟨.str (js "Honda"), .undefined, .num 2009, .str [], .undefined⟩ = js "Honda_2009" ∧
    specFolderName (js "Honda") []
      ⟨.str (js "Honda"), .undefined, .num 2009, .str [], .undefined⟩ = js "Honda_" := by
  decide

/-! ## `handleFileConflict` -/

theorem conflictLoop_step (path : PathLib) (fs : FS) (t : Path) (c : Nat) :
    conflictLoop path fs t c =
      if existsSync fs (conflictCandidate path t c) = true ∧ c + 1 < 100 then
        conflictLoop path fs t (c + 1)
      else (conflictCandidate path t c, c + 1) := by
  rw [conflictLoop]

/-- The loop stops at the first free candidate when that one is below 99. -/
theorem conflictLoop_free (path : PathLib) (fs : FS) (t : Path) (n : Nat) :
    ∀ c k : Nat, k = c + n → k + 1 < 100 →
      (∀ j, c ≤ j → j < k → existsSync fs (conflictCandidate path t j) = true) →
      existsSync fs (conflictCandidate path t k) = false →
      conflictLoop path fs t c = (conflictCandidate path t k, k + 1) := by
  induction n with
  | zero =>
    intro c k hk _ _ hfree
    have hkc : k = c := by omega
    subst hkc
    rw [conflictLoop_step, if_neg]
    rw [hfree]
    simp
  | succ n ih =>
    intro c k hk hlt hex hfree
    rw [conflictLoop_step, if_pos ⟨hex c (le_refl c) (by omega), by omega⟩]
    exact ih (c + 1) k (by omega) hlt (fun j h1 h2 => hex j (by omega) h2) hfree

/-- The loop leaves with `counter = 100` when the candidates below 99 all exist. -/
theorem conflictLoop_full (path : PathLib) (fs : FS) (t : Path) (n : Nat) :
    ∀ c : Nat, 99 = c + n →
      (∀ j, c ≤ j → j < 99 → existsSync fs (conflictCandidate path t j) = true) →
      conflictLoop path fs t c = (conflictCandidate path t 99, 100) := by
  induction n with
  | zero =>
    intro c hc _
    have : c = 99 := by omega
    subst this
    rw [conflictLoop_step, if_neg]
    simp
  | succ n ih =>
    intro c hc hex
    rw [conflictLoop_step, if_pos ⟨hex c (le_refl c) (by omega), by omega⟩]
    exact ih (c + 1) (by omega) fun j h1 h2 => hex j (by omega) h2

/-- Below 99, either some candidate from `c` on is free, the first of them
being `k`, or all of them exist. -/
theorem first_free_or_full (path : PathLib) (fs : FS) (t : Path) (n : Nat) :
    ∀ c : Nat, 99 = c + n →
      (∃ k, c ≤ k ∧ k < 99 ∧ existsSync fs (conflictCandidate path t k) = false ∧
        ∀ j, c ≤ j → j < k → existsSync fs (conflictCandidate path t j) = true) ∨
      (∀ j, c ≤ j → j < 99 → existsSync fs (conflictCandidate path t j) = true) := by
  induction n with
  | zero =>
    intro c hc
    exact Or.inr fun j h1 h2 => by omega
  | succ n ih =>
    intro c hc
    by_cases hex : existsSync fs (conflictCandidate path t c) = true
    · rcases ih (c + 1) (by omega) with ⟨k, h1, h2, h3, h4⟩ | hall
      · refine Or.inl ⟨k, by omega, h2, h3, fun j hj1 hj2 => ?_⟩
        by_cases hjc : j = c
        · rw [hjc]; exact hex
        · exact h4 j (by omega) hj2
      · refine Or.inr fun j hj1 hj2 => ?_
        by_cases hjc : j = c
        · rw [hjc]; exact hex
        · exact hall j (by omega) hj2
    · exact Or.inl ⟨c, le_refl c, by omega, by simpa using hex, fun j h1 h2 => by omega⟩

/-- What `handleFileConflict` does, case by case. -/
theorem handleFileConflict_cases (path : PathLib) (fs : FS) (t : Path) :
    (existsSync fs t = false ∧ handleFileConflict path fs t = .ok t) ∨
    (existsSync fs t = true ∧ ∃ k, 1 ≤ k ∧ k < 99 ∧
      existsSync fs (conflictCandidate path t k) = false ∧
      (∀ j, 1 ≤ j → j < k → existsSync fs (conflictCandidate path t j) = true) ∧
      handleFileConflict path fs t = .ok (conflictCandidate path t k)) ∨
    (existsSync fs t = true ∧
      (∀ j, 1 ≤ j → j < 99 → existsSync fs (conflictCandidate path t j) = true) ∧
      handleFileConflict path fs t = .error .tooManyConflicts) := by
  by_cases ht : existsSync fs t = true
  · right
    rcases first_free_or_full path fs t 98 1 rfl with ⟨k, h1, h2, h3, h4⟩ | hall
    · left
      refine ⟨ht, k, h1, h2, h3, h4, ?_⟩
      unfold handleFileConflict
      rw [conflictLoop_free path fs t (k - 1) 1 k (by omega) (by omega) h4 h3]
      simp only [ht, Bool.not_true, Bool.false_eq_true, if_false]
      rw [if_neg (by simp only [ge_iff_le]; omega)]
    · right
      refine ⟨ht, hall, ?_⟩
      unfold handleFileConflict
      rw [conflictLoop_full path fs t 98 1 rfl hall]
      simp [ht]
  · left
    have ht2 : existsSync fs t = false := by simpa using ht
    refine ⟨ht2, ?_⟩
    unfold handleFileConflict
    simp [ht2]

/-- C4: whenever `handleFileConflict(t)` returns a path `p`, nothing exists at
`p`; `p` is `t` if nothing exists at `t`; otherwise `p` is the candidate
`base_k` (in `t`'s directory, with `t`'s extension) for the least `k ≥ 1`
whose candidate does not exist. And when `t` and `base_1` ... `base_5` exist
and `base_6` does not, it returns `base_6`. -/
theorem handleFileConflict_returns (path : PathLib) (fs : FS) (t : Path) :
    (∀ p, handleFileConflict path fs t = .ok p →
      existsSync fs p = false ∧
      (existsSync fs t = false → p = t) ∧
      (existsSync fs t = true → ∃ k, 1 ≤ k ∧ p = conflictCandidate path t k ∧
        existsSync fs (conflictCandidate path t k) = false ∧
        ∀ j, 1 ≤ j → j < k → existsSync fs (conflictCandidate path t j) = true)) ∧
    (existsSync fs t = true →
      (∀ j, 1 ≤ j → j ≤ 5 → existsSync fs (conflictCandidate path t j) = true) →
      existsSync fs (conflictCandidate path t 6) = false →
      handleFileConflict path fs t = .ok (conflictCandidate path t 6)) := by
  constructor
  · intro p hp
    rcases handleFileConflict_cases path fs t with ⟨h1, h2⟩ | ⟨h1, k, hk1, _, hk3, hk4, h2⟩ |
      ⟨_, _, h2⟩
    · rw [h2] at hp
      cases hp
      exact ⟨h1, fun _ => rfl, fun h => absurd (h1.symm.trans h) (by decide)⟩
    · rw [h2] at hp
      cases hp
      exact ⟨hk3, fun h => absurd (h1.symm.trans h) (by decide),
        fun _ => ⟨k, hk1, rfl, hk3, hk4⟩⟩
    · rw [h2] at hp
      cases hp
  · intro ht h5 h6
    unfold handleFileConflict
    rw [conflictLoop_free path fs t 5 1 6 rfl (by omega) (fun j h1 h2 => h5 j h1 (by omega)) h6]
    simp [ht]

/-- The example of C4: `/sorted` holds `name.pdf` and `name_1.pdf` to
`name_5.pdf`; the resolver returns `/sorted/name_6.pdf`, where nothing exists. -/
theorem handleFileConflict_returns_witness :
    handleFileConflict simplePath (conflictFolder 5) (js "/sorted/name.pdf") =
      .ok (js "/sorted/name_6.pdf") ∧
    existsSync (conflictFolder 5) (js "/sorted/name_6.pdf") = false := by
  have h := (handleFileConflict_returns simplePath (conflictFolder 5) (js "/sorted/name.pdf")).2
    (by decide) (by decide) (by decide)
  have hc : conflictCandidate simplePath (js "/sorted/name.pdf") 6 = js "/sorted/name_6.pdf" := by
    decide
  rw [hc] at h
  exact ⟨h, ((handleFileConflict_returns simplePath (conflictFolder 5)
    (js "/sorted/name.pdf")).1 _ h).1⟩

theorem conflictFolder_full :
    ∀ j, j < 98 → existsSync (conflictFolder 98)
      (conflictCandidate simplePath (js "/sorted/name.pdf") (j + 1)) = true := by
  decide

/-- C5: `handleFileConflict` fails with `Too many file conflicts` exactly when
the desired path and the candidates `base_1` ... `base_98` all exist, whatever
is at `base_99`. So with `name.pdf` and `name_1.pdf` ... `name_98.pdf` in
place and `name_99.pdf` free, it tests `name_99.pdf`, finds it free, and
fails all the same. -/
theorem handleFileConflict_too_many :
    (∀ (path : PathLib) (fs : FS) (t : Path),
      handleFileConflict path fs t = .error .tooManyConflicts ↔
        (existsSync fs t = true ∧
          ∀ j, 1 ≤ j → j ≤ 98 → existsSync fs (conflictCandidate path t j) = true)) ∧
    conflictCandidate simplePath (js "/sorted/name.pdf") 99 = js "/sorted/name_99.pdf" ∧
    existsSync (conflictFolder 98) (js "/sorted/name_99.pdf") = false ∧
    handleFileConflict simplePath (conflictFolder 98) (js "/sorted/name.pdf") =
      .error .tooManyConflicts := by
  have gen : ∀ (path : PathLib) (fs : FS) (t : Path),
      handleFileConflict path fs t = .error .tooManyConflicts ↔
        (existsSync fs t = true ∧
          ∀ j, 1 ≤ j → j ≤ 98 → existsSync fs (conflictCandidate path t j) = true) := by
    intro path fs t
    rcases handleFileConflict_cases path fs t with ⟨h1, h2⟩ | ⟨h1, k, hk1, hk2, hk3, _, h2⟩ |
      ⟨h1, hall, h2⟩
    · rw [h2]
      constructor
      · intro h; cases h
      · intro h; rw [h1] at h; cases h.1
    · rw [h2]
      constructor
      · intro h; cases h
      · intro h
        have := h.2 k hk1 (by omega)
        rw [hk3] at this
        cases this
    · rw [h2]
      exact ⟨fun _ => ⟨h1, fun j hj1 hj2 => hall j hj1 (by omega)⟩, fun _ => rfl⟩
  refine ⟨gen, by decide, by decide, ?_⟩
  rw [gen]
  refine ⟨by decide, fun j h1 h2 => ?_⟩
  have := conflictFolder_full (j - 1) (by omega)
  rwa [show j - 1 + 1 = j by omega] at this

/-! ## The file system -/

theorem find_of_exists {fs : FS} {x : Path} (h : existsSync fs x = true) :
    ∃ ent, fs.find x = some ent := by
  unfold existsSync at h
  exact Option.isSome_iff_exists.1 h

theorem find_of_missing {fs : FS} {x : Path} (h : existsSync fs x = false) :
    fs.find x = none := by
  unfold existsSync at h
  cases hf : fs.find x with
  | none => rfl
  | some ent => rw [hf] at h; cases h

theorem find_remove_self (fs : FS) (p : Path) : (fs.remove p).find p = none := by
  unfold FS.find FS.remove
  simp only [List.lookup_eq_none_iff]
  intro q hq
  have := (List.mem_filter.1 hq).2
  simp only [bne_iff_ne, ne_eq] at this ⊢
  exact fun heq => this heq.symm

theorem find_remove_ne (fs : FS) {x p : Path} (h : x ≠ p) : (fs.remove p).find x = fs.find x := by
  obtain ⟨nodes⟩ := fs
  unfold FS.find FS.remove
  simp only
  induction nodes with
  | nil => rfl
  | cons n rest ih =>
    obtain ⟨k, b⟩ := n
    by_cases hk : k = p
    · subst hk
      have hx : (x == k) = false := by simpa using h
      simp [List.filter_cons, List.lookup_cons, hx, ih]
    · have hk2 : (k != p) = true := by simpa using hk
      simp only [List.filter_cons, hk2, if_true, List.lookup_cons]
      rw [ih]

theorem find_append_single (nodes : List (Path × Entry)) {x q : Path} (ent : Entry)
    (h : x ≠ q) : FS.find ⟨nodes ++ [(q, ent)]⟩ x = FS.find ⟨nodes⟩ x := by
  unfold FS.find
  have hx : (x == q) = false := by simpa using h
  simp [List.lookup_append, List.lookup_cons, hx]

theorem find_append_of_some (nodes more : List (Path × Entry)) {x : Path} {ent : Entry}
    (h : FS.find ⟨nodes⟩ x = some ent) : FS.find ⟨nodes ++ more⟩ x = some ent := by
  unfold FS.find at h ⊢
  simp [List.lookup_append, h]

/-- A successful `mkdir` keeps every entry. -/
theorem find_mkdir {env : Env} {fs fs1 : FS} {p : Path} (h : mkdir env fs p = .ok fs1) :
    ∀ x ent, fs.find x = some ent → fs1.find x = some ent := by
  intro x ent hx
  unfold mkdir at h
  split at h
  · cases h
  · split at h
    · cases h; exact hx
    · cases h
    · cases h
      exact find_append_of_some fs.nodes _ hx

theorem rename_error {env : Env} {fs : FS} {src dst : Path} {e : Failure}
    (h : rename env fs src dst = .error e) : e = .fsError (.rename src dst) := by
  unfold rename at h
  split at h
  · cases h; rfl
  · split at h
    · cases h
    · cases h; rfl

theorem rename_ok {env : Env} {fs fs2 : FS} {src dst : Path}
    (h : rename env fs src dst = .ok fs2) :
    ∃ ent, fs.find src = some ent ∧
      fs2 = ⟨((fs.remove src).remove dst).nodes ++ [(dst, ent)]⟩ := by
  unfold rename at h
  split at h
  · cases h
  · split at h
    · rename_i ent hent
      cases h
      exact ⟨ent, hent, rfl⟩
    · cases h

/-- A successful `rename` keeps every entry other than its two paths. -/
theorem find_rename {env : Env} {fs fs2 : FS} {src dst : Path}
    (h : rename env fs src dst = .ok fs2) {x : Path} (h1 : x ≠ src) (h2 : x ≠ dst) :
    fs2.find x = fs.find x := by
  obtain ⟨ent, _, rfl⟩ := rename_ok h
  rw [find_append_single _ ent h2]
  show ((fs.remove src).remove dst).find x = _
  rw [find_remove_ne _ h2, find_remove_ne _ h1]

/-- After a successful `rename` to another path nothing is left at the source. -/
theorem find_rename_source {env : Env} {fs fs2 : FS} {src dst : Path}
    (h : rename env fs src dst = .ok fs2) (hne : src ≠ dst) : fs2.find src = none := by
  obtain ⟨ent, _, rfl⟩ := rename_ok h
  rw [find_append_single _ ent hne]
  show ((fs.remove src).remove dst).find src = _
  rw [find_remove_ne _ hne, find_remove_self]

theorem handleFileConflict_free {path : PathLib} {fs : FS} {t p : Path}
    (h : handleFileConflict path fs t = .ok p) : existsSync fs p = false := by
  rcases handleFileConflict_cases path fs t with ⟨h1, h2⟩ | ⟨_, k, _, _, hk3, _, h2⟩ | ⟨_, _, h2⟩
  · rw [h2] at h; cases h; exact h1
  · rw [h2] at h; cases h; exact hk3
  · rw [h2] at h; cases h

/-! ## `moveFiles` and `processPDFFile` -/

/-- When `moveFiles` fails, the metadata file is where it was, and unless the
failing call is the `rename` of the metadata file every entry is where it
was. -/
theorem moveFiles_failure (env : Env) (fs fs' : FS) (pdfPath jsonPath p : Path) (e : Failure)
    (hjson : existsSync fs jsonPath = true)
    (h : moveFiles env fs pdfPath jsonPath p = (fs', some e)) :
    fs'.find jsonPath = fs.find jsonPath ∧
    ((∀ dst, e ≠ .moveFailed (.fsError (.rename jsonPath dst))) →
      ∀ x ent, fs.find x = some ent → fs'.find x = some ent) := by
  obtain ⟨jent, hjent⟩ := find_of_exists hjson
  unfold moveFiles at h
  cases hmk : mkdir env fs p with
  | error e1 =>
    rw [hmk] at h
    simp only [Prod.mk.injEq] at h
    obtain ⟨rfl, _⟩ := h
    exact ⟨rfl, fun _ x ent hx => hx⟩
  | ok fs1 =>
    rw [hmk] at h
    simp only at h
    have hpres := find_mkdir hmk
    have hj1 : fs1.find jsonPath = fs.find jsonPath := by rw [hjent]; exact hpres _ _ hjent
    cases hc1 : handleFileConflict env.path fs1 (env.path.join p (env.path.basename pdfPath)) with
    | error e1 =>
      rw [hc1] at h
      simp only [Prod.mk.injEq] at h
      obtain ⟨rfl, _⟩ := h
      exact ⟨hj1, fun _ => hpres⟩
    | ok finalPdfPath =>
      rw [hc1] at h
      simp only at h
      cases hc2 : handleFileConflict env.path fs1
          (env.path.join p (env.path.basename jsonPath)) with
      | error e1 =>
        rw [hc2] at h
        simp only [Prod.mk.injEq] at h
        obtain ⟨rfl, _⟩ := h
        exact ⟨hj1, fun _ => hpres⟩
      | ok finalJsonPath =>
        rw [hc2] at h
        simp only at h
        cases hr1 : rename env fs1 pdfPath finalPdfPath with
        | error e1 =>
          rw [hr1] at h
          simp only [Prod.mk.injEq] at h
          obtain ⟨rfl, _⟩ := h
          exact ⟨hj1, fun _ => hpres⟩
        | ok fs2 =>
          rw [hr1] at h
          simp only at h
          by_cases hex : existsSync fs2 jsonPath = true
          · rw [if_pos hex] at h
            cases hr2 : rename env fs2 jsonPath finalJsonPath with
            | error e2 =>
              rw [hr2] at h
              simp only [Prod.mk.injEq, Option.some.injEq] at h
              obtain ⟨rfl, rfl⟩ := h
              have he2 := rename_error hr2
              obtain ⟨pent, hpent, _⟩ := rename_ok hr1
              have hfree := find_of_missing (handleFileConflict_free hc1)
              have hne : pdfPath ≠ finalPdfPath := by
                intro heq
                rw [← heq, hpent] at hfree
                cases hfree
              have hj2 : jsonPath ≠ finalPdfPath := by
                intro heq
                rw [← heq, hj1, hjent] at hfree
                cases hfree
              have hj3 : jsonPath ≠ pdfPath := by
                intro heq
                have := find_of_exists hex
                rw [heq, find_rename_source hr1 hne] at this
                obtain ⟨_, h0⟩ := this
                cases h0
              refine ⟨by rw [find_rename hr1 hj3 hj2, hj1], fun hno => ?_⟩
              exact absurd (by rw [he2]) (hno finalJsonPath)
            | ok fs3 =>
              rw [hr2] at h
              simp at h
          · rw [if_neg hex] at h
            simp at h

theorem planTarget_exists {env : Env} {targetDirectory : Path} {fs : FS} {jsonPath p : Path}
    (h : planTarget env targetDirectory fs jsonPath = .target p) :
    existsSync fs jsonPath = true := by
  unfold planTarget at h
  by_cases hex : existsSync fs jsonPath = true
  · exact hex
  · simp [hex] at h

/-- C6, as amended: in live mode, whatever the file system and whichever
calls fail, if `moveFiles` fails then `processPDFFile` increments `errors`
(and `processed`) and not `moved`; the metadata file is still at its source
path; and unless the failing call is the `rename` of the metadata file (which
runs after the PDF has been renamed, and is not rolled back), every entry of
the file system, the source PDF included, is still where it was. -/
theorem processPDFFile_move_failure (env : Env) (r : Run) (pdfPath p : Path) (fs' : FS)
    (e : Failure) (hlive : r.bot.dryRun = false)
    (hplan : planTarget env r.bot.targetDirectory r.fs (replacePdfSuffix pdfPath) = .target p)
    (hfail : moveFiles env r.fs pdfPath (replacePdfSuffix pdfPath) p = (fs', some e)) :
    (processPDFFile env r pdfPath).bot.stats =
      ⟨r.bot.stats.processed + 1, r.bot.stats.moved, r.bot.stats.errors + 1,
        r.bot.stats.skipped⟩ ∧
    (processPDFFile env r pdfPath).fs = fs' ∧
    existsSync fs' (replacePdfSuffix pdfPath) = true ∧
    fs'.find (replacePdfSuffix pdfPath) = r.fs.find (replacePdfSuffix pdfPath) ∧
    ((∀ dst, e ≠ .moveFailed (.fsError (.rename (replacePdfSuffix pdfPath) dst))) →
      ∀ x ent, r.fs.find x = some ent → fs'.find x = some ent) := by
  have hjson := planTarget_exists hplan
  have hmove := moveFiles_failure env r.fs fs' pdfPath _ p e hjson hfail
  have hrun : processPDFFile env r pdfPath =
      (({ (r.countProcessed.log (.processing (env.path.basename pdfPath))) with fs := fs' }.log
        (.errorProcessing (env.path.basename pdfPath) e)).countError) := by
    unfold processPDFFile
    simp only [Run.countProcessed, Run.log, hplan, hlive, hfail, Bool.false_eq_true, if_false]
  refine ⟨?_, ?_, ?_, hmove.1, hmove.2⟩
  · rw [hrun]; rfl
  · rw [hrun]; rfl
  · unfold existsSync at hjson ⊢
    rw [hmove.1]
    exact hjson

/-- The example of C6, and the refutation of the claim as stated: the first
demo pair sorted in place, with the `rename` of the metadata file failing.
`moveFiles` fails, `errors` is 1 and `moved` is 0, the metadata file is still
in `/manuals`, but the PDF is no longer there: it is in the target folder. -/
theorem processPDFFile_partial_move :
    (demoRun false).bot.dryRun = false ∧
    existsSync (demoRun false).fs (js "/manuals/Honda_CBR600RR_Service.pdf") = true ∧
    existsSync (demoRun false).fs (js "/manuals/Honda_CBR600RR_Service.json") = true ∧
    (moveFiles (demoEnv metadataRenameFails) (demoRun false).fs
      (js "/manuals/Honda_CBR600RR_Service.pdf") (js "/manuals/Honda_CBR600RR_Service.json")
      (js "/manuals/Honda_CBR600RR_2003-2006_workshop_manual")).2 =
      some (.moveFailed (.fsError (.rename (js "/manuals/Honda_CBR600RR_Service.json")
        (js "/manuals/Honda_CBR600RR_2003-2006_workshop_manual/Honda_CBR600RR_Service.json")))) ∧
    (processPDFFile (demoEnv metadataRenameFails) (demoRun false)
      (js "/manuals/Honda_CBR600RR_Service.pdf")).bot.stats = ⟨1, 0, 1, 0⟩ ∧
    existsSync (processPDFFile (demoEnv metadataRenameFails) (demoRun false)
      (js "/manuals/Honda_CBR600RR_Service.pdf")).fs
      (js "/manuals/Honda_CBR600RR_Service.json") = true ∧
    existsSync (processPDFFile (demoEnv metadataRenameFails) (demoRun false)
      (js "/manuals/Honda_CBR600RR_Service.pdf")).fs
      (js "/manuals/Honda_CBR600RR_Service.pdf") = false ∧
    existsSync (processPDFFile (demoEnv metadataRenameFails) (demoRun false)
      (js "/manuals/Honda_CBR600RR_Service.pdf")).fs
      (js "/manuals/Honda_CBR600RR_2003-2006_workshop_manual/Honda_CBR600RR_Service.pdf") =
      true := by
  decide

/-- The example of C6 with the `rename` of the PDF failing: `errors` is 1,
`moved` is 0, the target folder has been created and both files of the pair
are still in `/manuals`. -/
theorem processPDFFile_move_failure_witness :
    (processPDFFile (demoEnv pdfRenameFails) (demoRun false)
      (js "/manuals/Honda_CBR600RR_Service.pdf")).bot.stats = ⟨1, 0, 1, 0⟩ ∧
    (processPDFFile (demoEnv pdfRenameFails) (demoRun false)
      (js "/manuals/Honda_CBR600RR_Service.pdf")).fs =
      ⟨demoSource.nodes ++ [(js "/manuals/Honda_CBR600RR_2003-2006_workshop_manual", .dir)]⟩ ∧
    existsSync
      ⟨demoSource.nodes ++ [(js "/manuals/Honda_CBR600RR_2003-2006_workshop_manual", .dir)]⟩
      (js "/manuals/Honda_CBR600RR_Service.json") = true ∧
    FS.find
      ⟨demoSource.nodes ++ [(js "/manuals/Honda_CBR600RR_2003-2006_workshop_manual", .dir)]⟩
      (js "/manuals/Honda_CBR600RR_Service.pdf") = some (.file (js "%PDF-1.4")) := by
  have h := processPDFFile_move_failure (demoEnv pdfRenameFails) (demoRun false)
    (js "/manuals/Honda_CBR600RR_Service.pdf")
    (js "/manuals/Honda_CBR600RR_2003-2006_workshop_manual")
    ⟨demoSource.nodes ++ [(js "/manuals/Honda_CBR600RR_2003-2006_workshop_manual", .dir)]⟩
    (.moveFailed (.fsError (.rename (js "/manuals/Honda_CBR600RR_Service.pdf")
      (js "/manuals/Honda_CBR600RR_2003-2006_workshop_manual/Honda_CBR600RR_Service.pdf"))))
    (by decide) (by decide) (by decide)
  refine ⟨h.1, h.2.1, h.2.2.1, h.2.2.2.2 ?_ _ _ (by decide)⟩
  intro dst hd
  have hsrc : js "/manuals/Honda_CBR600RR_Service.pdf" =
      replacePdfSuffix (js "/manuals/Honda_CBR600RR_Service.pdf") := by
    injection hd with h1
    injection h1 with h2
    injection h2 with h3 _
  exact absurd hsrc (by decide)

/-! ## Dry run -/

theorem processPDFFile_dry (env : Env) (r : Run) (pdfPath : Path) (h : r.bot.dryRun = true) :
    (processPDFFile env r pdfPath).fs = r.fs ∧
    (processPDFFile env r pdfPath).bot.dryRun = true ∧
    (processPDFFile env r pdfPath).bot.sourceDirectory = r.bot.sourceDirectory ∧
    (processPDFFile env r pdfPath).bot.stats.moved = r.bot.stats.moved := by
  unfold processPDFFile
  simp only [Run.countProcessed, Run.log, h, if_true]
  split <;> simp [Run.countSkipped, Run.countError, Run.log, h]

theorem processItems_dry (env : Env) (descend : Run → Path → Run) (dirPath : Path)
    (hd : ∀ (r : Run) (p : Path), r.bot.dryRun = true →
      (descend r p).fs = r.fs ∧ (descend r p).bot.dryRun = true ∧
      (descend r p).bot.sourceDirectory = r.bot.sourceDirectory ∧
      (descend r p).bot.stats.moved = r.bot.stats.moved)
    (items : List JSString) :
    ∀ r : Run, r.bot.dryRun = true →
      (processItems env descend dirPath items r).1.fs = r.fs ∧
      (processItems env descend dirPath items r).1.bot.dryRun = true ∧
      (processItems env descend dirPath items r).1.bot.sourceDirectory = r.bot.sourceDirectory ∧
      (processItems env descend dirPath items r).1.bot.stats.moved = r.bot.stats.moved := by
  induction items with
  | nil => intro r h; exact ⟨rfl, h, rfl, rfl⟩
  | cons item rest ih =>
    intro r h
    unfold processItems
    simp only
    split
    · exact ⟨rfl, h, rfl, rfl⟩
    · split
      · exact ih (r.log (.skippingTarget item)) h
      · obtain ⟨h1, h2, h3, h4⟩ := hd r (env.path.join dirPath item) h
        obtain ⟨i1, i2, i3, i4⟩ := ih (descend r (env.path.join dirPath item)) h2
        exact ⟨i1.trans h1, i2, i3.trans h3, i4.trans h4⟩
      · obtain ⟨h1, h2, h3, h4⟩ := processPDFFile_dry env r (env.path.join dirPath item) h
        obtain ⟨i1, i2, i3, i4⟩ := ih (processPDFFile env r (env.path.join dirPath item)) h2
        exact ⟨i1.trans h1, i2, i3.trans h3, i4.trans h4⟩
      · exact ih r h

theorem processDirectory_dry (env : Env) (depth : Nat) :
    ∀ (r : Run) (dirPath : Path), r.bot.dryRun = true →
      (processDirectory env depth r dirPath).fs = r.fs ∧
      (processDirectory env depth r dirPath).bot.dryRun = true ∧
      (processDirectory env depth r dirPath).bot.sourceDirectory = r.bot.sourceDirectory ∧
      (processDirectory env depth r dirPath).bot.stats.moved = r.bot.stats.moved := by
  induction depth with
  | zero => intro r dirPath h; exact ⟨rfl, h, rfl, rfl⟩
  | succ depth ih =>
    intro r dirPath h
    unfold processDirectory
    split
    · exact ⟨rfl, h, rfl, rfl⟩
    · rename_i items _
      have hi := processItems_dry env (processDirectory env depth) dirPath ih items r h
      split
      · rename_i r2 e2 heq
        rw [heq] at hi
        exact hi
      · rename_i r2 heq
        rw [heq] at hi
        exact hi

/-- C7: with dry-run enabled, whatever the file system and the PDF path,
`processPDFFile` leaves the file system as it was and does not increment
`moved`; when it gets as far as computing the target folder `p` it prints
`p` (relative to the target directory), and a live run on the same state
calls `moveFiles` with that same `p`; and a whole dry run (`sort` on a fresh
bot) ends with `moved = 0` and the file system untouched. -/
theorem processPDFFile_dry_run (env : Env) (r : Run) (pdfPath : Path) :
    (processPDFFile env { r with bot := r.bot.setDryRun true } pdfPath).fs = r.fs ∧
    (processPDFFile env { r with bot := r.bot.setDryRun true } pdfPath).bot.stats.moved =
      r.bot.stats.moved ∧
    (∀ p, planTarget env r.bot.targetDirectory r.fs (replacePdfSuffix pdfPath) = .target p →
      (processPDFFile env { r with bot := r.bot.setDryRun true } pdfPath).console =
        r.console ++ [.processing (env.path.basename pdfPath),
          .wouldMoveTo (env.path.relative r.bot.targetDirectory p)] ∧
      (processPDFFile env { r with bot := r.bot.setDryRun false } pdfPath).fs =
        (moveFiles env r.fs pdfPath (replacePdfSuffix pdfPath) p).1) ∧
    (∀ (depth : Nat) (sourceDirectory : Path) (targetDirectory : Option Path),
      (sort env depth
        ⟨(Bot.new env.path sourceDirectory targetDirectory).setDryRun true, r.fs, []⟩).bot.stats.moved
        = 0 ∧
      (sort env depth
        ⟨(Bot.new env.path sourceDirectory targetDirectory).setDryRun true, r.fs, []⟩).fs
        = r.fs) := by
  have hdry := processPDFFile_dry env { r with bot := r.bot.setDryRun true } pdfPath rfl
  refine ⟨hdry.1, hdry.2.2.2, ?_, ?_⟩
  · intro p hp
    constructor
    · unfold processPDFFile
      simp [Run.countProcessed, Run.log, Bot.setDryRun, hp]
    · unfold processPDFFile
      simp only [Run.countProcessed, Run.log, Bot.setDryRun, hp, Bool.false_eq_true, if_false]
      split <;> rename_i heq <;> rw [heq] <;> rfl
  · intro depth sourceDirectory targetDirectory
    have h := processDirectory_dry env depth
      ⟨(Bot.new env.path sourceDirectory targetDirectory).setDryRun true, r.fs, []⟩
      (env.path.resolve sourceDirectory) rfl
    exact ⟨h.2.2.2, h.1⟩

/-- The example of C7: the first demo pair in a dry run. The report names the
folder `Honda_CBR600RR_2003-2006_workshop_manual`, nothing moves, and the live
run moves the pair into that folder. -/
theorem processPDFFile_dry_run_witness :
    (processPDFFile (demoEnv nothingFails) (demoRun true)
      (js "/manuals/Honda_CBR600RR_Service.pdf")).console =
      [.processing (js "Honda_CBR600RR_Service.pdf"),
        .wouldMoveTo (js "Honda_CBR600RR_2003-2006_workshop_manual")] ∧
    (processPDFFile (demoEnv nothingFails) (demoRun true)
      (js "/manuals/Honda_CBR600RR_Service.pdf")).fs = demoSource ∧
    existsSync (processPDFFile (demoEnv nothingFails) (demoRun false)
      (js "/manuals/Honda_CBR600RR_Service.pdf")).fs
      (js "/manuals/Honda_CBR600RR_2003-2006_workshop_manual/Honda_CBR600RR_Service.pdf") =
      true := by
  have h := processPDFFile_dry_run (demoEnv nothingFails) (demoRun true)
    (js "/manuals/Honda_CBR600RR_Service.pdf")
  have h3 := h.2.2.1 (js "/manuals/Honda_CBR600RR_2003-2006_workshop_manual") (by decide)
  refine ⟨h3.1, h.1, by decide⟩

/-! ## Missing metadata -/

/-- C10: when nothing exists at the companion `.json` path, `processPDFFile`
(in either mode) increments `processed` and `skipped` by one, leaves `errors`
and `moved` as they were, and leaves the file system as it was. -/
theorem processPDFFile_missing_metadata (env : Env) (r : Run) (pdfPath : Path)
    (h : existsSync r.fs (replacePdfSuffix pdfPath) = false) :
    (processPDFFile env r pdfPath).bot.stats =
      ⟨r.bot.stats.processed + 1, r.bot.stats.moved, r.bot.stats.errors,
        r.bot.stats.skipped + 1⟩ ∧
    (processPDFFile env r pdfPath).fs = r.fs := by
  have hplan : planTarget env r.bot.targetDirectory r.fs (replacePdfSuffix pdfPath) =
      .noMetadata := by
    unfold planTarget
    simp [h]
  unfold processPDFFile
  simp only [Run.countProcessed, Run.log, hplan]
  exact ⟨rfl, rfl⟩

/-- The example of C10: `/manuals/Lonely.PDF` has no `/manuals/Lonely.json`;
live or dry, it is counted as processed and skipped and stays in place. -/
theorem processPDFFile_missing_metadata_witness :
    replacePdfSuffix (js "/manuals/Lonely.PDF") = js "/manuals/Lonely.json" ∧
    (processPDFFile (demoEnv nothingFails) (demoRun false) (js "/manuals/Lonely.PDF")).bot.stats =
      ⟨1, 0, 0, 1⟩ ∧
    (processPDFFile (demoEnv nothingFails) (demoRun false) (js "/manuals/Lonely.PDF")).fs =
      demoSource ∧
    (processPDFFile (demoEnv nothingFails) (demoRun true) (js "/manuals/Lonely.PDF")).bot.stats =
      ⟨1, 0, 0, 1⟩ ∧
    (processPDFFile (demoEnv nothingFails) (demoRun true) (js "/manuals/Lonely.PDF")).fs =
      demoSource :=
  ⟨by decide,
    (processPDFFile_missing_metadata (demoEnv nothingFails) (demoRun false)
      (js "/manuals/Lonely.PDF") (by decide)).1,
    (processPDFFile_missing_metadata (demoEnv nothingFails) (demoRun false)
      (js "/manuals/Lonely.PDF") (by decide)).2,
    (processPDFFile_missing_metadata (demoEnv nothingFails) (demoRun true)
      (js "/manuals/Lonely.PDF") (by decide)).1,
    (processPDFFile_missing_metadata (demoEnv nothingFails) (demoRun true)
      (js "/manuals/Lonely.PDF") (by decide)).2⟩

/-! ## The walker's skip heuristic -/

theorem matchesBrandDir_eq (name : JSString) :
    matchesBrandDir name =
      ((match name.head? with
        | some c => isAsciiLetter c
        | none => false) && name.all isBrandDirChar) := by
  cases name with
  | nil => rfl
  | cons c cs =>
    simp only [matchesBrandDir, List.head?_cons, List.all_cons]
    cases hc : isAsciiLetter c <;> simp [isBrandDirChar, hc]

/-- C9, as amended: `isTargetDirectory` returns true if and only if the name
starts with a letter, is composed only of letters, digits, white space
characters (any code unit `\s` matches, not only the space), hyphen and
underscore, and has length strictly between 2 and 30; a directory item is
skipped by the walker exactly in that case, and descended into otherwise. -/
theorem isTargetDirectory_iff :
    (∀ name : JSString, isTargetDirectory name = whiteSpaceTargetName name) ∧
    (∀ (path : PathLib) (item : JSString),
      (itemAction path .dir item = .skip ↔ whiteSpaceTargetName item = true) ∧
      (itemAction path .dir item = .descend ↔ whiteSpaceTargetName item = false)) ∧
    (∀ (env : Env) (descend : Run → Path → Run) (dirPath : Path) (item : JSString)
      (items : List JSString) (r : Run),
      stat env r.fs (env.path.join dirPath item) = .ok .dir →
      processItems env descend dirPath (item :: items) r =
        if whiteSpaceTargetName item then
          processItems env descend dirPath items (r.log (.skippingTarget item))
        else processItems env descend dirPath items (descend r (env.path.join dirPath item))) := by
  have h1 : ∀ name : JSString, isTargetDirectory name = whiteSpaceTargetName name := by
    intro name
    unfold isTargetDirectory whiteSpaceTargetName
    rw [matchesBrandDir_eq]
    rfl
  refine ⟨h1, ?_, ?_⟩
  · intro path item
    unfold itemAction
    simp only [h1]
    cases whiteSpaceTargetName item <;> simp
  · intro env descend dirPath item items r hstat
    rw [processItems]
    simp only [hstat, itemAction, h1]
    cases whiteSpaceTargetName item <;> simp

/-- C9, as stated, fails: the directory name `my<TAB>dir` (code units `m`,
`y`, TAB, `d`, `i`, `r`) is not composed only of letters, digits, space,
hyphen and underscore, yet `isTargetDirectory` returns true for it and the
walker skips it. -/
theorem isTargetDirectory_tab_counterexample :
    specTargetName [109, 121, 9, 100, 105, 114] = false ∧
    isTargetDirectory [109, 121, 9, 100, 105, 114] = true ∧
    itemAction simplePath .dir [109, 121, 9, 100, 105, 114] = .skip := by
  decide

/-- The example of C9: in `/manuals` the directory `Honda` is skipped and the
directory `in` (two letters) is descended into. -/
theorem isTargetDirectory_iff_witness :
    isTargetDirectory (js "Honda") = true ∧
    itemAction simplePath .dir (js "in") = .descend ∧
    processItems (demoEnv nothingFails) (fun r _ => r) (js "/manuals") [js "Honda"]
      ⟨(demoRun true).bot, ⟨[(js "/manuals/Honda", .dir)]⟩, []⟩ =
      (⟨(demoRun true).bot, ⟨[(js "/manuals/Honda", .dir)]⟩, [.skippingTarget (js "Honda")]⟩,
        none) := by
  have h := isTargetDirectory_iff
  refine ⟨by decide, (h.2.1 simplePath (js "in")).2.2 (by decide), ?_⟩
  rw [h.2.2 (demoEnv nothingFails) (fun r _ => r) (js "/manuals") (js "Honda") []
    ⟨(demoRun true).bot, ⟨[(js "/manuals/Honda", .dir)]⟩, []⟩ rfl]
  decide

end SortingBot
